import Mathlib

/-!
# archive-reader: `main.c` against its specification

`src/main.c` is one function, `main`, a linear driver over libarchive and libc:

* create a reader, register filters and formats, open `/tmp/test.zip`;
* `while (1)`: read the next header, leave on `ARCHIVE_EOF`, otherwise take the
  entry's pathname and leave when `strcmp` with `"content/nested/second"` is 0;
* read one data block, `puts` the buffer, close and free the reader, return 0.

libarchive is not part of the repository, so it is a parameter of the model: a
record `Libarchive σ` of transition functions over an arbitrary library state
`σ`, one field per function that `main` calls, together with the value of the
macro `ARCHIVE_EOF` and the memory that the library state exposes to the
program.  Output parameters (`&entry`, `&buffer`, `&size`, `&offset`) are passed
in with their current value and come back with their new value.

`strcmp` and `puts` are modelled on a flat byte memory.  Reading through the
null pointer or past the end of the mapped memory has no defined behaviour; the
run then ends in `Outcome.undefined`.  The `while (1)` loop is run with a bound
on the number of iterations; `timeout` is the only result that stands for "the
loop is still running".
-/

namespace ArchiveReader

/-! ## Memory, C strings, libc -/

/-- Pointers are addresses in a flat memory. -/
abbrev Ptr := Nat

/-- The null pointer. -/
def NULL : Ptr := 0

/-- Memory: the byte stored at address `a` is element `a` of the list; addresses
from `length` on are not mapped. -/
abbrev Mem := List Nat

/-- The bytes of a string literal, without the terminating NUL. -/
def bytes (s : String) : List Nat := s.toList.map Char.toNat

/-- The string literal of line 19. -/
def target : List Nat := bytes "content/nested/second"

/-- The NUL-terminated string that starts a run of memory cells: the cells before
the first zero byte.  `none` when the cells end before a zero byte is met. -/
def cstrOf : List Nat → Option (List Nat)
  | [] => none
  | b :: bs => if b = 0 then some [] else (cstrOf bs).map (fun t => b :: t)

/-- The C string at pointer `p`; not defined for the null pointer. -/
def readCStr (m : Mem) (p : Ptr) : Option (List Nat) :=
  if p = NULL then none else cstrOf (m.drop p)

/-- The comparison loop of `strcmp`: the first argument is read from memory cell by
cell, the second is a string literal whose terminating NUL is the end of the
list.  The result is the difference of the first pair of bytes that differ, 0
when both strings end together; `none` when the walk leaves mapped memory. -/
def strcmpCells : List Nat → List Nat → Option Int
  | [], _ => none
  | b :: _, [] => some (b : Int)
  | b :: bs, c :: cs =>
    if b = c then (if b = 0 then some 0 else strcmpCells bs cs)
    else some ((b : Int) - (c : Int))

/-- The libc call `strcmp(p, lit)` on memory `m`. -/
def strcmp (m : Mem) (p : Ptr) (lit : List Nat) : Option Int :=
  if p = NULL then none else strcmpCells (m.drop p) lit

/-- The libc call `puts(p)`: the text written to standard output, which is the C
string at `p` followed by a newline. -/
def puts (m : Mem) (p : Ptr) : Option (List Nat) :=
  (readCStr m p).map (fun t => t ++ [10])

/-! ## The library interface -/

/-- The three output parameters of `archive_read_data_block`. -/
structure Block where
  buffer : Ptr
  size : Nat
  offset : Int
  deriving DecidableEq, Repr

/-- The part of libarchive that `main` uses, over a library state `σ`. -/
structure Libarchive (σ : Type) where
  /-- value of the macro `ARCHIVE_EOF` of `<archive.h>` -/
  ARCHIVE_EOF : Int
  archive_read_new : σ → Ptr × σ
  archive_read_support_filter_all : Ptr → σ → Int × σ
  archive_read_support_format_raw : Ptr → σ → Int × σ
  archive_read_support_format_all : Ptr → σ → Int × σ
  archive_read_open_filename : Ptr → String → Nat → σ → Int × σ
  /-- reader, current value of `entry`; gives return code, new value of `entry` -/
  archive_read_next_header : Ptr → Ptr → σ → Int × Ptr × σ
  archive_entry_pathname : Ptr → σ → Ptr × σ
  /-- reader, current `buffer`, `size`, `offset`; gives return code and new values -/
  archive_read_data_block : Ptr → Block → σ → Int × Block × σ
  archive_read_close : Ptr → σ → Int × σ
  archive_read_free : Ptr → σ → Int × σ
  /-- the memory the program can read in a library state -/
  mem : σ → Mem

/-- A call made by `main`, with its pointer arguments. -/
inductive Call where
  | archive_read_new
  | archive_read_support_filter_all (a : Ptr)
  | archive_read_support_format_raw (a : Ptr)
  | archive_read_support_format_all (a : Ptr)
  | archive_read_open_filename (a : Ptr) (file : String) (blockSize : Nat)
  | archive_read_next_header (a : Ptr)
  | archive_entry_pathname (e : Ptr)
  | strcmp (p : Ptr)
  | archive_read_data_block (a : Ptr)
  | puts (p : Ptr)
  | archive_read_close (a : Ptr)
  | archive_read_free (a : Ptr)
  deriving DecidableEq, Repr

/-- What a run has done so far: the library state, the calls made, and the text
written to standard output. -/
structure St (σ : Type) where
  lib : σ
  trace : List Call
  out : List Nat

/-! ## The program -/

/-- Result of one pass through the body of the `while (1)` loop. -/
inductive Step (σ : Type) where
  /-- a `break` was taken -/
  | brk (entry : Ptr) (st : St σ)
  /-- the end of the body was reached -/
  | cont (entry : Ptr) (st : St σ)
  /-- `strcmp` read through an invalid pointer -/
  | fault (st : St σ)

/-- Lines 15-21: the body of the loop. -/
def loopBody {σ : Type} (L : Libarchive σ) (reader entry : Ptr) (st : St σ) : Step σ :=
  let r := L.archive_read_next_header reader entry st.lib
  let st1 : St σ := ⟨r.2.2, st.trace ++ [Call.archive_read_next_header reader], st.out⟩
  if r.1 = L.ARCHIVE_EOF then Step.brk r.2.1 st1
  else
    let q := L.archive_entry_pathname r.2.1 st1.lib
    let st2 : St σ :=
      ⟨q.2, st1.trace ++ [Call.archive_entry_pathname r.2.1, Call.strcmp q.1], st1.out⟩
    match strcmp (L.mem q.2) q.1 target with
    | none => Step.fault st2
    | some c => if c = 0 then Step.brk r.2.1 st2 else Step.cont r.2.1 st2

/-- Result of the loop. -/
inductive Scan (σ : Type) where
  | exited (entry : Ptr) (st : St σ)
  | undefined (st : St σ)
  | timeout (st : St σ)

/-- Lines 14-22: `while (1)`, run for at most `fuel` passes. -/
def scanLoop {σ : Type} (L : Libarchive σ) (reader : Ptr) : Nat → Ptr → St σ → Scan σ
  | 0, _, st => Scan.timeout st
  | fuel + 1, entry, st =>
    match loopBody L reader entry st with
    | Step.brk e st1 => Scan.exited e st1
    | Step.cont e st1 => scanLoop L reader fuel e st1
    | Step.fault st1 => Scan.undefined st1

/-- Result of a run of `main`. -/
inductive Outcome (σ : Type) where
  | returned (status : Int) (st : St σ)
  | undefined (st : St σ)
  | timeout (st : St σ)

/-- Lines 7-11: the reader and the state after the set-up calls.  No return value
of the set-up calls is kept. -/
def prologue {σ : Type} (L : Libarchive σ) (s : σ) : Ptr × St σ :=
  let n := L.archive_read_new s
  let reader := n.1
  let s1 := (L.archive_read_support_filter_all reader n.2).2
  let s2 := (L.archive_read_support_format_raw reader s1).2
  let s3 := (L.archive_read_support_format_all reader s2).2
  let s4 := (L.archive_read_open_filename reader "/tmp/test.zip" 1 s3).2
  (reader,
    ⟨s4, [Call.archive_read_new,
          Call.archive_read_support_filter_all reader,
          Call.archive_read_support_format_raw reader,
          Call.archive_read_support_format_all reader,
          Call.archive_read_open_filename reader "/tmp/test.zip" 1], []⟩)

/-- Lines 24-32: what follows the loop. -/
def epilogue {σ : Type} (L : Libarchive σ) (reader : Ptr) (st : St σ) : Outcome σ :=
  let d := L.archive_read_data_block reader ⟨NULL, 0, 0⟩ st.lib
  let buffer := d.2.1.buffer
  let tr := st.trace ++ [Call.archive_read_data_block reader, Call.puts buffer]
  match puts (L.mem d.2.2) buffer with
  | none => Outcome.undefined ⟨d.2.2, tr, st.out⟩
  | some text =>
    let c := L.archive_read_close reader d.2.2
    let f := L.archive_read_free reader c.2
    Outcome.returned 0
      ⟨f.2, tr ++ [Call.archive_read_close reader, Call.archive_read_free reader],
        st.out ++ text⟩

/-- The function `main` of `src/main.c`, on a library `L` started in state `s`,
with at most `fuel` passes through the loop. -/
def main {σ : Type} (L : Libarchive σ) (s : σ) (fuel : Nat) : Outcome σ :=
  let p := prologue L s
  match scanLoop L p.1 fuel NULL p.2 with
  | Scan.exited _ st => epilogue L p.1 st
  | Scan.undefined st => Outcome.undefined st
  | Scan.timeout st => Outcome.timeout st

/-- The run state of an outcome. -/
def Outcome.st {σ : Type} : Outcome σ → St σ
  | Outcome.returned _ st => st
  | Outcome.undefined st => st
  | Outcome.timeout st => st

/-- The run state of a loop result. -/
def Scan.st {σ : Type} : Scan σ → St σ
  | Scan.exited _ st => st
  | Scan.undefined st => st
  | Scan.timeout st => st

/-- Exit status of a run that returned. -/
def Outcome.exitStatus {σ : Type} : Outcome σ → Option Int
  | Outcome.returned c _ => some c
  | _ => none

/-! ## Archives and test libraries -/

/-- A header of an archive: the entry object that `archive_read_next_header` hands
out for it, and the entry's pathname. -/
structure Header where
  entry : Ptr
  name : List Nat
  deriving DecidableEq, Repr

/-- The library, asked for headers from state `s` on with `entry` currently `e`,
behaves as an archive whose remaining headers are `hs`: each call of
`archive_read_next_header` returns a code other than `ARCHIVE_EOF` and the next
header, whose pathname is a C string in memory; after the last header the call
returns `ARCHIVE_EOF`. -/
def Serves {σ : Type} (L : Libarchive σ) (reader : Ptr) : List Header → Ptr → σ → Prop
  | [], e, s => (L.archive_read_next_header reader e s).1 = L.ARCHIVE_EOF
  | h :: hs, e, s =>
    (L.archive_read_next_header reader e s).1 ≠ L.ARCHIVE_EOF ∧
    (L.archive_read_next_header reader e s).2.1 = h.entry ∧
    readCStr
      (L.mem (L.archive_entry_pathname h.entry (L.archive_read_next_header reader e s).2.2).2)
      (L.archive_entry_pathname h.entry (L.archive_read_next_header reader e s).2.2).1
      = some h.name ∧
    Serves L reader hs h.entry
      (L.archive_entry_pathname h.entry (L.archive_read_next_header reader e s).2.2).2

/-- The header has the pathname of line 19. -/
def Header.matches (h : Header) : Bool := decide (h.name = target)

/-- The call is an `archive_read_next_header`, on any handle. -/
def Call.isNextHeader : Call → Bool
  | Call.archive_read_next_header _ => true
  | _ => false

/-- The call is an `archive_read_data_block`, on any handle. -/
def Call.isDataBlock : Call → Bool
  | Call.archive_read_data_block _ => true
  | _ => false

/-- The call is a `puts`. -/
def Call.isPuts : Call → Bool
  | Call.puts _ => true
  | _ => false

/-- The call is an `archive_read_close`, on any handle. -/
def Call.isClose : Call → Bool
  | Call.archive_read_close _ => true
  | _ => false

/-- The call is an `archive_read_free`, on any handle. -/
def Call.isFree : Call → Bool
  | Call.archive_read_free _ => true
  | _ => false

/-- Number of `archive_read_next_header` calls in a trace. -/
def nextHeaderCalls (tr : List Call) : Nat := tr.countP Call.isNextHeader

/-- The bytes of a data block: `size` memory cells from `buffer` on. -/
def blockBytes (m : Mem) (b : Block) : List Nat := (m.drop b.buffer).take b.size

/-- The run returned from `main`. -/
def Outcome.returns {σ : Type} : Outcome σ → Bool
  | Outcome.returned _ _ => true
  | _ => false

/-- The run came to an end: `main` returned, or the run stopped in a call that has
no defined behaviour.  Only a run that is still in the loop has not ended. -/
def Outcome.ended {σ : Type} : Outcome σ → Bool
  | Outcome.timeout _ => false
  | _ => true

/-- The pass through the loop body took a `break`. -/
def Step.isBrk {σ : Type} : Step σ → Bool
  | Step.brk _ _ => true
  | _ => false

/-- The pass through the loop body reached its end, so the loop goes round again. -/
def Step.isCont {σ : Type} : Step σ → Bool
  | Step.cont _ _ => true
  | _ => false

/-- The library `L` with other `size` and `offset` results of
`archive_read_data_block`, chosen by `sz` and `off`; everything else, the return
code, the buffer pointer and the memory included, is as in `L`. -/
def reporting {σ : Type} (L : Libarchive σ) (sz : σ → Nat) (off : σ → Int) : Libarchive σ where
  ARCHIVE_EOF := L.ARCHIVE_EOF
  archive_read_new := L.archive_read_new
  archive_read_support_filter_all := L.archive_read_support_filter_all
  archive_read_support_format_raw := L.archive_read_support_format_raw
  archive_read_support_format_all := L.archive_read_support_format_all
  archive_read_open_filename := L.archive_read_open_filename
  archive_read_next_header := L.archive_read_next_header
  archive_entry_pathname := L.archive_entry_pathname
  archive_read_data_block := fun a b s =>
    ((L.archive_read_data_block a b s).1,
      ⟨(L.archive_read_data_block a b s).2.1.buffer, sz s, off s⟩,
      (L.archive_read_data_block a b s).2.2)
  archive_read_close := L.archive_read_close
  archive_read_free := L.archive_read_free
  mem := L.mem

/-- The library `L` with the return code of `archive_read_open_filename` replaced
by `code`; the state it leaves is as in `L`. -/
def withOpenCode {σ : Type} (L : Libarchive σ) (code : Int) : Libarchive σ where
  ARCHIVE_EOF := L.ARCHIVE_EOF
  archive_read_new := L.archive_read_new
  archive_read_support_filter_all := L.archive_read_support_filter_all
  archive_read_support_format_raw := L.archive_read_support_format_raw
  archive_read_support_format_all := L.archive_read_support_format_all
  archive_read_open_filename := fun a f b s => (code, (L.archive_read_open_filename a f b s).2)
  archive_read_next_header := L.archive_read_next_header
  archive_entry_pathname := L.archive_entry_pathname
  archive_read_data_block := L.archive_read_data_block
  archive_read_close := L.archive_read_close
  archive_read_free := L.archive_read_free
  mem := L.mem

/-- A scripted stand-in for libarchive.  The state counts the headers handed out.
Header `i` of `script` is a return code, an entry pointer and a pathname
pointer; after the script, `archive_read_next_header` returns `eofCode` and
leaves `entry` as it is.  `archive_read_data_block` returns `dataCode`, and
assigns `blk` to its output parameters when `blk` is given and leaves them
untouched otherwise.  The set-up and tear-down calls return `aux`.
`ARCHIVE_EOF` is 1 as in libarchive's `archive.h`; the reader handle is 4096. -/
def scripted (aux : Int) (script : List (Int × Ptr × Ptr)) (eofCode dataCode : Int)
    (blk : Option Block) (m : Mem) : Libarchive Nat where
  ARCHIVE_EOF := 1
  archive_read_new := fun s => (4096, s)
  archive_read_support_filter_all := fun _ s => (aux, s)
  archive_read_support_format_raw := fun _ s => (aux, s)
  archive_read_support_format_all := fun _ s => (aux, s)
  archive_read_open_filename := fun _ _ _ s => (aux, s)
  archive_read_next_header := fun _ e s =>
    match script.get? s with
    | some h => (h.1, h.2.1, s + 1)
    | none => (eofCode, e, s)
  archive_entry_pathname := fun _ s =>
    match script.get? (s - 1) with
    | some h => (h.2.2, s)
    | none => (NULL, s)
  archive_read_data_block := fun _ b s =>
    match blk with
    | some k => (dataCode, k, s)
    | none => (dataCode, b, s)
  archive_read_close := fun _ s => (aux, s)
  archive_read_free := fun _ s => (aux, s)
  mem := fun _ => m

/-- A stand-in for a library that fails for ever: every header read returns
`ARCHIVE_FATAL` (-30) and every pathname is the string `"x"` at address 1. -/
def stuck : Libarchive Unit where
  ARCHIVE_EOF := 1
  archive_read_new := fun s => (4096, s)
  archive_read_support_filter_all := fun _ s => (-30, s)
  archive_read_support_format_raw := fun _ s => (-30, s)
  archive_read_support_format_all := fun _ s => (-30, s)
  archive_read_open_filename := fun _ _ _ s => (-30, s)
  archive_read_next_header := fun _ e s => (-30, e, s)
  archive_entry_pathname := fun _ s => (1, s)
  archive_read_data_block := fun _ b s => (-30, b, s)
  archive_read_close := fun _ s => (-30, s)
  archive_read_free := fun _ s => (-30, s)
  mem := fun _ => [0, 120, 0]

/-- Test memory: address 0 is the null page, `"first"` is at 1, the hardcoded
pathname at 7, `"content/nested/second.txt"` at 29, and at 55 a data block of
three bytes `h`, NUL, `i`, followed at 58 by the bytes `ok!` and a NUL. -/
def testMem : Mem :=
  [0] ++ bytes "first" ++ [0] ++ target ++ [0] ++ bytes "content/nested/second.txt" ++ [0]
    ++ [104, 0, 105] ++ bytes "ok!" ++ [0]

/-- `Serves` is decided by running the library. -/
instance Serves.instDecidable {σ : Type} (L : Libarchive σ) (reader : Ptr) :
    ∀ (hs : List Header) (e : Ptr) (s : σ), Decidable (Serves L reader hs e s)
  | [], _, _ => inferInstanceAs (Decidable (_ = _))
  | _ :: hs, _, _ =>
    have := Serves.instDecidable L reader hs
    inferInstanceAs (Decidable (_ ∧ _ ∧ _ ∧ _))

/-! ## Auxiliary definitions for the statements -/

/-- The run state after the pathname of the new header has been compared. -/
def afterCompare {σ : Type} (L : Libarchive σ) (reader : Ptr) (e : Ptr) (st : St σ) : St σ :=
  ⟨(L.archive_entry_pathname (L.archive_read_next_header reader e st.lib).2.1
      (L.archive_read_next_header reader e st.lib).2.2).2,
    st.trace ++ [Call.archive_read_next_header reader,
      Call.archive_entry_pathname (L.archive_read_next_header reader e st.lib).2.1,
      Call.strcmp (L.archive_entry_pathname (L.archive_read_next_header reader e st.lib).2.1
        (L.archive_read_next_header reader e st.lib).2.2).1],
    st.out⟩

/-- The result of `strcmp` in a pass of the loop that reaches it. -/
def compared {σ : Type} (L : Libarchive σ) (reader : Ptr) (e : Ptr) (st : St σ) : Option Int :=
  strcmp
    (L.mem (L.archive_entry_pathname (L.archive_read_next_header reader e st.lib).2.1
      (L.archive_read_next_header reader e st.lib).2.2).2)
    (L.archive_entry_pathname (L.archive_read_next_header reader e st.lib).2.1
      (L.archive_read_next_header reader e st.lib).2.2).1 target

/-- The run state of a pass through the loop body. -/
def Step.st {σ : Type} : Step σ → St σ
  | Step.brk _ st => st
  | Step.cont _ st => st
  | Step.fault st => st

/-- The calls that the loop makes. -/
def Call.inLoop : Call → Bool
  | Call.archive_read_next_header _ => true
  | Call.archive_entry_pathname _ => true
  | Call.strcmp _ => true
  | _ => false

/-- The call of line 27 in run state `st`: return code, new values of the output
parameters, new library state. -/
def dataBlock {σ : Type} (L : Libarchive σ) (reader : Ptr) (st : St σ) : Int × Block × σ :=
  L.archive_read_data_block reader ⟨NULL, 0, 0⟩ st.lib

/-- The calls of lines 7-11, on handle `reader`. -/
def setupCalls (reader : Ptr) : List Call :=
  [Call.archive_read_new,
   Call.archive_read_support_filter_all reader,
   Call.archive_read_support_format_raw reader,
   Call.archive_read_support_format_all reader,
   Call.archive_read_open_filename reader "/tmp/test.zip" 1]

/-- Test archive of four headers over `testMem`; the second and the fourth are named
as in line 19. -/
def demoHeaders : List Header :=
  [⟨500, bytes "first"⟩, ⟨501, target⟩, ⟨502, bytes "content/nested/second.txt"⟩, ⟨503, target⟩]

/-- Test library that serves `demoHeaders`; its data block is the three bytes at 55. -/
def demoLib : Libarchive Nat :=
  scripted 0 [(0, 500, 1), (0, 501, 7), (0, 502, 29), (0, 503, 7)] 1 0 (some ⟨55, 3, 0⟩) testMem

/-- Test library that serves `demoHeaders`; its data block is the two bytes `ok` at
58, which are followed in memory by `!` and a NUL. -/
def overLib : Libarchive Nat :=
  scripted 0 [(0, 500, 1), (0, 501, 7), (0, 502, 29), (0, 503, 7)] 1 0 (some ⟨58, 2, 0⟩) testMem

/-- Test library that serves `demoHeaders`; its data block is the three bytes `ok!`
at 58, which are followed in memory by a NUL. -/
def textLib : Libarchive Nat :=
  scripted 0 [(0, 500, 1), (0, 501, 7), (0, 502, 29), (0, 503, 7)] 1 0 (some ⟨58, 3, 0⟩) testMem

/-- Test library on which everything fails: the set-up and tear-down calls return
`ARCHIVE_FATAL` (-30), the archive has no header, and the data read returns
`ARCHIVE_FATAL` with the buffer set to address 58. -/
def failLib : Libarchive Nat :=
  scripted (-30) [] 1 (-30) (some ⟨58, 3, 0⟩) testMem

/-- Test library with one header, not named as in line 19, whose data read fails and
leaves its output parameters untouched. -/
def nullLib : Libarchive Nat :=
  scripted 0 [(0, 500, 1)] 1 (-30) none testMem

/-- Test library whose header reads return `ARCHIVE_WARN` (-20), `ARCHIVE_RETRY`
(-10), `ARCHIVE_FAILED` (-25) and `ARCHIVE_FATAL` (-30); the fourth header is
named as in line 19. -/
def warnLib : Libarchive Nat :=
  scripted 0 [(-20, 500, 1), (-10, 502, 29), (-25, 500, 1), (-30, 501, 7)] 1 0
    (some ⟨58, 3, 0⟩) testMem

/-! ## Facts about `strcmp` and C strings -/

theorem target_no_zero : 0 ∉ target := by decide

theorem cstrOf_no_zero : ∀ (cells t : List Nat), cstrOf cells = some t → 0 ∉ t
  | [], t, h => by simp [cstrOf] at h
  | b :: bs, t, h => by
    by_cases hb : b = 0
    · simp [cstrOf, hb] at h
      subst h
      simp
    · simp only [cstrOf, hb, if_false, Option.map_eq_some'] at h
      obtain ⟨u, hu, rfl⟩ := h
      have := cstrOf_no_zero bs u hu
      simp only [List.mem_cons, not_or]
      exact ⟨fun h0 => hb h0.symm, this⟩

/-- The comparison gives 0 exactly when the cells hold the literal followed by NUL. -/
theorem strcmpCells_eq_zero_iff :
    ∀ (lit cells : List Nat), 0 ∉ lit →
      (strcmpCells cells lit = some 0 ↔ cstrOf cells = some lit)
  | _, [], _ => by simp [strcmpCells, cstrOf]
  | [], b :: bs, _ => by
    by_cases hb : b = 0
    · simp [strcmpCells, cstrOf, hb]
    · simp [strcmpCells, cstrOf, hb]
  | c :: cs, b :: bs, h => by
    have hc : c ≠ 0 := fun h0 => h (by simp [h0])
    have hcs : 0 ∉ cs := fun h0 => h (by simp [h0])
    by_cases hbc : b = c
    · subst hbc
      simp [strcmpCells, cstrOf, hc, strcmpCells_eq_zero_iff cs bs hcs]
    · have hne : (b : Int) - (c : Int) ≠ 0 := by omega
      simp only [strcmpCells, hbc, if_false, Option.some.injEq, hne, false_iff, cstrOf]
      by_cases hb : b = 0
      · simp [hb]
      · simp [hb, hbc]

/-- On a NUL-terminated string the comparison never leaves the string. -/
theorem strcmpCells_defined :
    ∀ (lit cells t : List Nat), cstrOf cells = some t → ∃ c, strcmpCells cells lit = some c
  | _, [], _, h => by simp [cstrOf] at h
  | [], b :: bs, _, _ => ⟨(b : Int), by simp [strcmpCells]⟩
  | c :: cs, b :: bs, t, h => by
    by_cases hbc : b = c
    · by_cases hb : b = 0
      · subst hbc
        subst hb
        exact ⟨0, by simp [strcmpCells]⟩
      · simp only [cstrOf, hb, if_false, Option.map_eq_some'] at h
        obtain ⟨u, hu, _⟩ := h
        obtain ⟨r, hr⟩ := strcmpCells_defined cs bs u hu
        refine ⟨r, ?_⟩
        subst hbc
        simp [strcmpCells, hb, hr]
    · exact ⟨(b : Int) - (c : Int), by simp [strcmpCells, hbc]⟩

theorem strcmp_eq_zero_iff (m : Mem) (p : Ptr) :
    strcmp m p target = some 0 ↔ readCStr m p = some target := by
  unfold strcmp readCStr
  by_cases hp : p = NULL
  · simp [hp]
  · simp only [hp, if_false]
    exact strcmpCells_eq_zero_iff target _ target_no_zero

theorem strcmp_of_readCStr (m : Mem) (p : Ptr) (name : List Nat)
    (h : readCStr m p = some name) :
    ∃ c, strcmp m p target = some c ∧ (c = 0 ↔ name = target) := by
  have hp : p ≠ NULL := by
    intro hp
    simp [readCStr, hp] at h
  have h1 : cstrOf (m.drop p) = some name := by simpa [readCStr, hp] using h
  obtain ⟨c, hc⟩ := strcmpCells_defined target _ name h1
  have hc1 : strcmp m p target = some c := by simpa [strcmp, hp] using hc
  refine ⟨c, hc1, ?_⟩
  constructor
  · intro h0
    subst h0
    have := (strcmp_eq_zero_iff m p).1 hc1
    rw [h] at this
    exact Option.some.inj this
  · intro hn
    subst hn
    have := (strcmp_eq_zero_iff m p).2 h
    rw [hc1] at this
    exact Option.some.inj this

/-! ## Facts about the loop -/

section Loop

variable {σ : Type} (L : Libarchive σ) (reader : Ptr)

theorem loopBody_eof (e : Ptr) (st : St σ)
    (h : (L.archive_read_next_header reader e st.lib).1 = L.ARCHIVE_EOF) :
    loopBody L reader e st =
      Step.brk (L.archive_read_next_header reader e st.lib).2.1
        ⟨(L.archive_read_next_header reader e st.lib).2.2,
          st.trace ++ [Call.archive_read_next_header reader], st.out⟩ := by
  simp [loopBody, h]

theorem loopBody_compare (e : Ptr) (st : St σ)
    (h : (L.archive_read_next_header reader e st.lib).1 ≠ L.ARCHIVE_EOF) :
    loopBody L reader e st =
      match compared L reader e st with
      | none => Step.fault (afterCompare L reader e st)
      | some c =>
        if c = 0 then
          Step.brk (L.archive_read_next_header reader e st.lib).2.1 (afterCompare L reader e st)
        else
          Step.cont (L.archive_read_next_header reader e st.lib).2.1 (afterCompare L reader e st) := by
  simp [loopBody, h, compared, afterCompare]

theorem nextHeaderCalls_append (tr ext : List Call) :
    nextHeaderCalls (tr ++ ext) = nextHeaderCalls tr + nextHeaderCalls ext := by
  simp [nextHeaderCalls]

theorem nextHeaderCalls_eof_step :
    nextHeaderCalls [Call.archive_read_next_header reader] = 1 := by
  simp [nextHeaderCalls, Call.isNextHeader]

theorem nextHeaderCalls_compare_step (e p : Ptr) :
    nextHeaderCalls
      [Call.archive_read_next_header reader, Call.archive_entry_pathname e, Call.strcmp p] = 1 := by
  simp [nextHeaderCalls, Call.isNextHeader, List.countP_cons]

theorem afterCompare_calls (e : Ptr) (st : St σ) :
    nextHeaderCalls (afterCompare L reader e st).trace
      = nextHeaderCalls st.trace + 1 := by
  simp only [afterCompare, nextHeaderCalls_append, nextHeaderCalls_compare_step]

/-- A pass through the body only appends loop calls to the trace and writes nothing. -/
theorem loopBody_st (e : Ptr) (st : St σ) :
    ∃ ext, (loopBody L reader e st).st.trace = st.trace ++ ext ∧
      (∀ c ∈ ext, Call.inLoop c = true) ∧ ext ≠ [] ∧
      (loopBody L reader e st).st.out = st.out := by
  by_cases h : (L.archive_read_next_header reader e st.lib).1 = L.ARCHIVE_EOF
  · rw [loopBody_eof L reader e st h]
    exact ⟨[Call.archive_read_next_header reader], rfl, by simp [Call.inLoop], by simp, rfl⟩
  · rw [loopBody_compare L reader e st h]
    refine ⟨[Call.archive_read_next_header reader,
      Call.archive_entry_pathname (L.archive_read_next_header reader e st.lib).2.1,
      Call.strcmp (L.archive_entry_pathname (L.archive_read_next_header reader e st.lib).2.1
        (L.archive_read_next_header reader e st.lib).2.2).1], ?_, by simp [Call.inLoop], by simp, ?_⟩
    · cases compared L reader e st with
      | none => rfl
      | some c => by_cases hc : c = 0 <;> simp [hc, Step.st, afterCompare]
    · cases compared L reader e st with
      | none => rfl
      | some c => by_cases hc : c = 0 <;> simp [hc, Step.st, afterCompare]

/-- The loop only appends loop calls to the trace and writes nothing. -/
theorem scanLoop_st : ∀ (fuel : Nat) (e : Ptr) (st : St σ),
    ∃ ext, (scanLoop L reader fuel e st).st.trace = st.trace ++ ext ∧
      (∀ c ∈ ext, Call.inLoop c = true) ∧
      (scanLoop L reader fuel e st).st.out = st.out
  | 0, _, st => ⟨[], by simp [scanLoop, Scan.st], by simp, rfl⟩
  | fuel + 1, e, st => by
    obtain ⟨ext, h1, h2, _, h3⟩ := loopBody_st L reader e st
    unfold scanLoop
    cases hb : loopBody L reader e st with
    | brk e1 st1 =>
      rw [hb] at h1 h3
      exact ⟨ext, h1, h2, h3⟩
    | fault st1 =>
      rw [hb] at h1 h3
      exact ⟨ext, h1, h2, h3⟩
    | cont e1 st1 =>
      rw [hb] at h1 h3
      obtain ⟨ext2, k1, k2, k3⟩ := scanLoop_st fuel e1 st1
      simp only [Step.st] at h1 h3
      refine ⟨ext ++ ext2, ?_, ?_, ?_⟩
      · simp only [k1, h1, List.append_assoc]
      · intro c hc
        rcases List.mem_append.1 hc with hc | hc
        · exact h2 c hc
        · exact k2 c hc
      · simp only [k3, h3]

/-- One more pass is made when the header read is not at the end and the pathname
differs from the hardcoded one. -/
theorem scanLoop_continue (fuel : Nat) (e : Ptr) (st : St σ) (c : Int)
    (h : (L.archive_read_next_header reader e st.lib).1 ≠ L.ARCHIVE_EOF)
    (hc : compared L reader e st = some c) (hne : c ≠ 0) :
    scanLoop L reader (fuel + 1) e st =
      scanLoop L reader fuel (L.archive_read_next_header reader e st.lib).2.1
        (afterCompare L reader e st) := by
  conv_lhs => unfold scanLoop
  rw [loopBody_compare L reader e st h, hc]
  simp [hne]

theorem scanLoop_match (fuel : Nat) (e : Ptr) (st : St σ)
    (h : (L.archive_read_next_header reader e st.lib).1 ≠ L.ARCHIVE_EOF)
    (hc : compared L reader e st = some 0) :
    scanLoop L reader (fuel + 1) e st =
      Scan.exited (L.archive_read_next_header reader e st.lib).2.1
        (afterCompare L reader e st) := by
  conv_lhs => unfold scanLoop
  rw [loopBody_compare L reader e st h, hc]
  simp

theorem scanLoop_eof (fuel : Nat) (e : Ptr) (st : St σ)
    (h : (L.archive_read_next_header reader e st.lib).1 = L.ARCHIVE_EOF) :
    scanLoop L reader (fuel + 1) e st =
      Scan.exited (L.archive_read_next_header reader e st.lib).2.1
        ⟨(L.archive_read_next_header reader e st.lib).2.2,
          st.trace ++ [Call.archive_read_next_header reader], st.out⟩ := by
  conv_lhs => unfold scanLoop
  rw [loopBody_eof L reader e st h]

/-- What `Serves` says about the first header, in terms of `compared`. -/
theorem Serves.head {h : Header} {hs : List Header} {e : Ptr} {st : St σ}
    (hsv : Serves L reader (h :: hs) e st.lib) :
    (L.archive_read_next_header reader e st.lib).1 ≠ L.ARCHIVE_EOF ∧
    (L.archive_read_next_header reader e st.lib).2.1 = h.entry ∧
    (∃ c, compared L reader e st = some c ∧ (c = 0 ↔ h.name = target)) ∧
    Serves L reader hs h.entry (afterCompare L reader e st).lib := by
  obtain ⟨h1, h2, h3, h4⟩ := hsv
  refine ⟨h1, h2, ?_, ?_⟩
  · unfold compared
    rw [h2]
    exact strcmp_of_readCStr _ _ _ h3
  · simp only [afterCompare]
    rw [h2]
    exact h4

/-- An archive with a header named as in line 19: the loop leaves at the first such
header, after one header read per header up to it. -/
theorem scanLoop_serves_match (h : Header) (hname : h.name = target) :
    ∀ (hs : List Header) (k fuel : Nat) (e : Ptr) (st : St σ),
      Serves L reader hs e st.lib → hs.get? k = some h →
      (∀ j, j < k → ∀ x, hs.get? j = some x → x.name ≠ target) → k < fuel →
      ∃ st1, scanLoop L reader fuel e st = Scan.exited h.entry st1 ∧
        nextHeaderCalls st1.trace = nextHeaderCalls st.trace + (k + 1)
  | [], k, _, _, _, _, hk, _, _ => by simp at hk
  | x :: hs, 0, fuel + 1, e, st, hsv, hk, _, _ => by
    obtain ⟨h1, h2, ⟨c, hc, hc0⟩, _⟩ := Serves.head L reader hsv
    simp only [List.get?_cons_zero, Option.some.injEq] at hk
    subst hk
    have : c = 0 := hc0.2 hname
    subst this
    rw [scanLoop_match L reader fuel e st h1 hc, h2]
    exact ⟨_, rfl, afterCompare_calls L reader e st⟩
  | x :: hs, k + 1, fuel + 1, e, st, hsv, hk, hfirst, hfuel => by
    obtain ⟨h1, h2, ⟨c, hc, hc0⟩, h4⟩ := Serves.head L reader hsv
    have hx : x.name ≠ target := hfirst 0 (Nat.succ_pos k) x rfl
    have hne : c ≠ 0 := fun h0 => hx (hc0.1 h0)
    rw [scanLoop_continue L reader fuel e st c h1 hc hne, h2]
    obtain ⟨st1, r1, r2⟩ := scanLoop_serves_match h hname hs k fuel x.entry
      (afterCompare L reader e st) h4 (by simpa using hk)
      (fun j hj y hy => hfirst (j + 1) (Nat.succ_lt_succ hj) y (by simpa using hy))
      (Nat.lt_of_succ_lt_succ hfuel)
    refine ⟨st1, r1, ?_⟩
    rw [r2, afterCompare_calls]
    omega

/-- An archive of `n` headers: the loop leaves after at most `n + 1` header reads,
and after exactly `n + 1` when no header is named as in line 19. -/
theorem scanLoop_serves : ∀ (hs : List Header) (fuel : Nat) (e : Ptr) (st : St σ),
      Serves L reader hs e st.lib → hs.length < fuel →
      ∃ e1 st1, scanLoop L reader fuel e st = Scan.exited e1 st1 ∧
        nextHeaderCalls st1.trace ≤ nextHeaderCalls st.trace + (hs.length + 1) ∧
        ((∀ x ∈ hs, x.name ≠ target) →
          nextHeaderCalls st1.trace
            = nextHeaderCalls st.trace + (hs.length + 1))
  | [], fuel + 1, e, st, hsv, _ => by
    rw [scanLoop_eof L reader fuel e st hsv]
    refine ⟨_, _, rfl, ?_, fun _ => ?_⟩ <;>
      simp [nextHeaderCalls_append, nextHeaderCalls_eof_step]
  | x :: hs, fuel + 1, e, st, hsv, hfuel => by
    obtain ⟨h1, h2, ⟨c, hc, hc0⟩, h4⟩ := Serves.head L reader hsv
    by_cases hz : c = 0
    · subst hz
      rw [scanLoop_match L reader fuel e st h1 hc]
      refine ⟨_, _, rfl, ?_, fun hno => ?_⟩
      · rw [afterCompare_calls]
        omega
      · exact absurd (hc0.1 rfl) (hno x (by simp))
    · rw [scanLoop_continue L reader fuel e st c h1 hc hz, h2]
      obtain ⟨e1, st1, r1, r2, r3⟩ := scanLoop_serves hs fuel x.entry
        (afterCompare L reader e st) h4 (by simpa using hfuel)
      refine ⟨e1, st1, r1, ?_, fun hno => ?_⟩
      · rw [afterCompare_calls] at r2
        simp only [List.length_cons]
        omega
      · have := r3 (fun y hy => hno y (by simp [hy]))
        rw [afterCompare_calls] at this
        simp only [List.length_cons]
        omega

end Loop

/-! ## Facts about `main` -/

section Main

variable {σ : Type} (L : Libarchive σ)

theorem prologue_trace (s : σ) : (prologue L s).2.trace = setupCalls (prologue L s).1 := rfl

theorem prologue_out (s : σ) : (prologue L s).2.out = [] := rfl

theorem nextHeaderCalls_setup (reader : Ptr) : nextHeaderCalls (setupCalls reader) = 0 := by
  simp [nextHeaderCalls, setupCalls, Call.isNextHeader]

theorem main_of_exited (s : σ) (fuel : Nat) (e : Ptr) (st : St σ)
    (h : scanLoop L (prologue L s).1 fuel NULL (prologue L s).2 = Scan.exited e st) :
    main L s fuel = epilogue L (prologue L s).1 st := by
  simp [main, h]

theorem epilogue_returned (reader : Ptr) (st : St σ) (text : List Nat)
    (h : puts (L.mem (dataBlock L reader st).2.2) (dataBlock L reader st).2.1.buffer = some text) :
    epilogue L reader st =
      Outcome.returned 0
        ⟨(L.archive_read_free reader
            (L.archive_read_close reader (dataBlock L reader st).2.2).2).2,
          st.trace ++ [Call.archive_read_data_block reader,
              Call.puts (dataBlock L reader st).2.1.buffer]
            ++ [Call.archive_read_close reader, Call.archive_read_free reader],
          st.out ++ text⟩ := by
  simp only [dataBlock] at h
  simp [epilogue, dataBlock, h]

theorem epilogue_undefined (reader : Ptr) (st : St σ)
    (h : puts (L.mem (dataBlock L reader st).2.2) (dataBlock L reader st).2.1.buffer = none) :
    epilogue L reader st =
      Outcome.undefined
        ⟨(dataBlock L reader st).2.2,
          st.trace ++ [Call.archive_read_data_block reader,
              Call.puts (dataBlock L reader st).2.1.buffer],
          st.out⟩ := by
  simp only [dataBlock] at h
  simp [epilogue, dataBlock, h]

/-- The trace after the loop, up to and including `puts`. -/
theorem epilogue_trace (reader : Ptr) (st : St σ) :
    (epilogue L reader st).st.trace =
      st.trace ++ [Call.archive_read_data_block reader,
          Call.puts (dataBlock L reader st).2.1.buffer]
        ++ (if (epilogue L reader st).returns = true then
              [Call.archive_read_close reader, Call.archive_read_free reader]
            else []) := by
  cases h : puts (L.mem (dataBlock L reader st).2.2) (dataBlock L reader st).2.1.buffer with
  | none => simp [epilogue_undefined L reader st h, Outcome.st, Outcome.returns]
  | some text => simp [epilogue_returned L reader st text h, Outcome.st, Outcome.returns]

/-- A run returns exactly when the loop is left and `puts` reads a C string. -/
theorem main_returns_iff (s : σ) (fuel : Nat) :
    (main L s fuel).returns = true ↔
      ∃ e st text, scanLoop L (prologue L s).1 fuel NULL (prologue L s).2 = Scan.exited e st ∧
        puts (L.mem (dataBlock L (prologue L s).1 st).2.2)
          (dataBlock L (prologue L s).1 st).2.1.buffer = some text := by
  constructor
  · intro h
    cases hs : scanLoop L (prologue L s).1 fuel NULL (prologue L s).2 with
    | exited e st =>
      rw [main_of_exited L s fuel e st hs] at h
      cases hp : puts (L.mem (dataBlock L (prologue L s).1 st).2.2)
          (dataBlock L (prologue L s).1 st).2.1.buffer with
      | none =>
        rw [epilogue_undefined L _ st hp] at h
        simp [Outcome.returns] at h
      | some text => exact ⟨e, st, text, rfl, hp⟩
    | undefined st => simp [main, hs, Outcome.returns] at h
    | timeout st => simp [main, hs, Outcome.returns] at h
  · rintro ⟨e, st, text, hs, hp⟩
    rw [main_of_exited L s fuel e st hs, epilogue_returned L _ st text hp]
    rfl

theorem nextHeaderCalls_epilogue (reader : Ptr) (st : St σ) :
    nextHeaderCalls (epilogue L reader st).st.trace = nextHeaderCalls st.trace := by
  rw [epilogue_trace]
  by_cases h : (epilogue L reader st).returns = true <;>
    simp [h, nextHeaderCalls, Call.isNextHeader]

end Main

/-! ## Facts about `puts` on a data block -/

/-- The C string that starts the cells ends at the first zero byte. -/
theorem cstrOf_of_first_zero : ∀ (cells : List Nat) (z : Nat),
    cells.get? z = some 0 → (∀ j, j < z → cells.get? j ≠ some 0) →
    cstrOf cells = some (cells.take z)
  | [], _, h, _ => by simp at h
  | b :: bs, 0, h, _ => by
    simp only [List.get?_cons_zero, Option.some.injEq] at h
    simp [cstrOf, h]
  | b :: bs, z + 1, h, hfirst => by
    have hb : b ≠ 0 := fun h0 => hfirst 0 (Nat.succ_pos z) (by simp [h0])
    have ih := cstrOf_of_first_zero bs z (by simpa using h)
      (fun j hj => by simpa using hfirst (j + 1) (Nat.succ_lt_succ hj))
    simp [cstrOf, hb, ih]

/-- The text that `puts` writes for a buffer whose first zero byte is at offset `z`,
inside the block or right after it. -/
theorem puts_of_first_zero (m : Mem) (b : Block) (z : Nat) (hb : b.buffer ≠ NULL)
    (hz : m.get? (b.buffer + z) = some 0)
    (hfirst : ∀ j, j < z → m.get? (b.buffer + j) ≠ some 0) (hle : z ≤ b.size) :
    puts m b.buffer = some ((blockBytes m b).take z ++ [10]) := by
  have h1 := cstrOf_of_first_zero (m.drop b.buffer) z (by simpa [List.getElem?_drop] using hz)
    (fun j hj => by simpa [List.getElem?_drop] using hfirst j hj)
  simp [puts, readCStr, hb, h1, blockBytes, List.take_take, Nat.min_eq_left hle]

/-! ## Facts about the trace of a run -/

section Trace

variable {σ : Type} (L : Libarchive σ)

/-- The trace of the loop when it has been left. -/
theorem exited_trace (s : σ) (fuel : Nat) (e : Ptr) (st : St σ)
    (h : scanLoop L (prologue L s).1 fuel NULL (prologue L s).2 = Scan.exited e st) :
    ∃ ext, st.trace = setupCalls (prologue L s).1 ++ ext ∧ ∀ c ∈ ext, Call.inLoop c = true := by
  obtain ⟨ext, h1, h2, _⟩ := scanLoop_st L (prologue L s).1 fuel NULL (prologue L s).2
  rw [h] at h1
  exact ⟨ext, by simpa [Scan.st, prologue_trace] using h1, h2⟩

/-- Loops over libraries with the same loop body are the same. -/
theorem scanLoop_congr (L1 : Libarchive σ) (reader : Ptr)
    (h : ∀ e st, loopBody L1 reader e st = loopBody L reader e st) :
    ∀ (fuel : Nat) (e : Ptr) (st : St σ),
      scanLoop L1 reader fuel e st = scanLoop L reader fuel e st
  | 0, _, _ => rfl
  | fuel + 1, e, st => by
    unfold scanLoop
    rw [h e st]
    cases loopBody L reader e st with
    | brk e1 st1 => rfl
    | fault st1 => rfl
    | cont e1 st1 => exact scanLoop_congr L1 reader h fuel e1 st1

/-- The first call of a loop that is given a pass is a header read. -/
theorem scanLoop_first_call (reader : Ptr) (fuel : Nat) (e : Ptr) (st : St σ) :
    ∃ ext, (scanLoop L reader (fuel + 1) e st).st.trace
      = st.trace ++ Call.archive_read_next_header reader :: ext := by
  have hbody : ∃ ext, (loopBody L reader e st).st.trace
      = st.trace ++ Call.archive_read_next_header reader :: ext := by
    by_cases h : (L.archive_read_next_header reader e st.lib).1 = L.ARCHIVE_EOF
    · rw [loopBody_eof L reader e st h]
      exact ⟨[], rfl⟩
    · rw [loopBody_compare L reader e st h]
      cases compared L reader e st with
      | none => exact ⟨_, rfl⟩
      | some c => by_cases hc : c = 0 <;> simp [hc, Step.st, afterCompare]
  obtain ⟨ext, hext⟩ := hbody
  unfold scanLoop
  cases hb : loopBody L reader e st with
  | brk e1 st1 =>
    rw [hb] at hext
    exact ⟨ext, hext⟩
  | fault st1 =>
    rw [hb] at hext
    exact ⟨ext, hext⟩
  | cont e1 st1 =>
    rw [hb] at hext
    obtain ⟨ext2, k1, _⟩ := scanLoop_st L reader fuel e1 st1
    simp only [Step.st] at hext
    exact ⟨ext ++ ext2, by simp [k1, hext]⟩

/-- The trace of a run extends the trace of its loop. -/
theorem main_trace_extends (s : σ) (fuel : Nat) :
    ∃ ext, (main L s fuel).st.trace
      = (scanLoop L (prologue L s).1 fuel NULL (prologue L s).2).st.trace ++ ext := by
  cases hs : scanLoop L (prologue L s).1 fuel NULL (prologue L s).2 with
  | exited e st =>
    rw [main_of_exited L s fuel e st hs, epilogue_trace, List.append_assoc]
    exact ⟨_, rfl⟩
  | undefined st => exact ⟨[], by simp [main, hs, Scan.st, Outcome.st]⟩
  | timeout st => exact ⟨[], by simp [main, hs, Scan.st, Outcome.st]⟩

/-- Nothing has been written when the loop is left. -/
theorem exited_out (s : σ) (fuel : Nat) (e : Ptr) (st : St σ)
    (h : scanLoop L (prologue L s).1 fuel NULL (prologue L s).2 = Scan.exited e st) :
    st.out = [] := by
  obtain ⟨_, _, _, h3⟩ := scanLoop_st L (prologue L s).1 fuel NULL (prologue L s).2
  rw [h] at h3
  simpa [Scan.st, prologue_out] using h3

/-- The whole run, when the loop is left and `buffer` points to a C string. -/
theorem main_of_text (s : σ) (fuel : Nat) (e : Ptr) (st : St σ) (text : List Nat)
    (hscan : scanLoop L (prologue L s).1 fuel NULL (prologue L s).2 = Scan.exited e st)
    (hbuf : readCStr (L.mem (dataBlock L (prologue L s).1 st).2.2)
      (dataBlock L (prologue L s).1 st).2.1.buffer = some text) :
    main L s fuel =
      Outcome.returned 0
        ⟨(L.archive_read_free (prologue L s).1
            (L.archive_read_close (prologue L s).1
              (dataBlock L (prologue L s).1 st).2.2).2).2,
          st.trace ++ [Call.archive_read_data_block (prologue L s).1,
            Call.puts (dataBlock L (prologue L s).1 st).2.1.buffer,
            Call.archive_read_close (prologue L s).1,
            Call.archive_read_free (prologue L s).1],
          text ++ [10]⟩ := by
  rw [main_of_exited L s fuel e st hscan,
    epilogue_returned L _ st (text ++ [10]) (by simp [puts, hbuf]),
    exited_out L s fuel e st hscan]
  simp

/-- No call of the loop is a close, a free, a data read or a `puts`. -/
theorem inLoop_kinds (c : Call) (h : Call.inLoop c = true) :
    c.isClose = false ∧ c.isFree = false ∧ c.isDataBlock = false ∧ c.isPuts = false := by
  cases c <;> simp_all [Call.inLoop, Call.isClose, Call.isFree, Call.isDataBlock, Call.isPuts]

end Trace

/-! ## Libraries that differ in results the program does not read -/

section Unread

variable {σ : Type} (L : Libarchive σ)

theorem main_withOpenCode (code : Int) (s : σ) (fuel : Nat) :
    main (withOpenCode L code) s fuel = main L s fuel := by
  have hp : prologue (withOpenCode L code) s = prologue L s := rfl
  simp only [main, hp]
  rw [scanLoop_congr L (withOpenCode L code) _ (fun _ _ => rfl)]
  cases scanLoop L (prologue L s).1 fuel NULL (prologue L s).2 <;> rfl

theorem main_reporting (sz : σ → Nat) (off : σ → Int) (s : σ) (fuel : Nat) :
    main (reporting L sz off) s fuel = main L s fuel := by
  have hp : prologue (reporting L sz off) s = prologue L s := rfl
  simp only [main, hp]
  rw [scanLoop_congr L (reporting L sz off) _ (fun _ _ => rfl)]
  cases scanLoop L (prologue L s).1 fuel NULL (prologue L s).2 <;> rfl

/-- A library that never reports the end and never the hardcoded pathname keeps the
loop running: every bound on the passes is used up. -/
theorem scanLoop_never (reader : Ptr)
    (hnever : ∀ e t, (L.archive_read_next_header reader e t).1 ≠ L.ARCHIVE_EOF ∧
      ∃ name, readCStr
        (L.mem (L.archive_entry_pathname (L.archive_read_next_header reader e t).2.1
          (L.archive_read_next_header reader e t).2.2).2)
        (L.archive_entry_pathname (L.archive_read_next_header reader e t).2.1
          (L.archive_read_next_header reader e t).2.2).1 = some name ∧ name ≠ target) :
    ∀ (fuel : Nat) (e : Ptr) (st : St σ),
      ∃ st1, scanLoop L reader fuel e st = Scan.timeout st1 ∧
        nextHeaderCalls st1.trace = nextHeaderCalls st.trace + fuel
  | 0, _, st => ⟨st, rfl, rfl⟩
  | fuel + 1, e, st => by
    obtain ⟨h1, name, h2, h3⟩ := hnever e st.lib
    obtain ⟨c, hc, hc0⟩ := strcmp_of_readCStr _ _ _ h2
    have hne : c ≠ 0 := fun h0 => h3 (hc0.1 h0)
    rw [scanLoop_continue L reader fuel e st c h1 hc hne]
    obtain ⟨st1, r1, r2⟩ := scanLoop_never reader hnever fuel
      (L.archive_read_next_header reader e st.lib).2.1 (afterCompare L reader e st)
    refine ⟨st1, r1, ?_⟩
    rw [r2, afterCompare_calls]
    omega

end Unread

/-! ## The claims -/

/-- C1: the scan stops at the first match.  When the library serves the headers
`hs` and `k` is the index of the first header named `content/nested/second`, the
loop (given more than `k` passes) is left with `entry` being header `k`, after
exactly `k + 1` calls of `archive_read_next_header`, and the whole run of `main`
makes no further such call. -/
theorem scan_stops_at_first_match {σ : Type} (L : Libarchive σ) (s : σ)
    (hs : List Header) (k fuel : Nat) (h : Header)
    (hsv : Serves L (prologue L s).1 hs NULL (prologue L s).2.lib)
    (hk : hs.get? k = some h) (hname : h.name = target)
    (hfirst : ∀ j, j < k → ∀ x, hs.get? j = some x → x.name ≠ target)
    (hfuel : k < fuel) :
    ∃ st, scanLoop L (prologue L s).1 fuel NULL (prologue L s).2 = Scan.exited h.entry st ∧
      nextHeaderCalls st.trace = k + 1 ∧
      nextHeaderCalls (main L s fuel).st.trace = k + 1 := by
  obtain ⟨st, h1, h2⟩ := scanLoop_serves_match L (prologue L s).1 h hname hs k fuel NULL
    (prologue L s).2 hsv hk hfirst hfuel
  rw [prologue_trace, nextHeaderCalls_setup, Nat.zero_add] at h2
  refine ⟨st, h1, h2, ?_⟩
  rw [main_of_exited L s fuel _ st h1, nextHeaderCalls_epilogue, h2]

/-- C1 at the test archive: of the two headers with the hardcoded name, the one at
index 1 is selected, after two header reads. -/
theorem scan_stops_at_first_match_witness :
    ∃ st, scanLoop demoLib 4096 10 NULL (prologue demoLib 0).2 = Scan.exited 501 st ∧
      nextHeaderCalls st.trace = 2 ∧
      nextHeaderCalls (main demoLib 0 10).st.trace = 2 :=
  scan_stops_at_first_match demoLib 0 demoHeaders 1 10 ⟨501, target⟩
    (by decide) (by decide) rfl
    (by
      intro j hj x hx
      interval_cases j
      simp only [demoHeaders, List.get?_cons_zero, Option.some.injEq] at hx
      subst hx
      decide)
    (by decide)

/-- C2 as stated fails: the text written is not always the `size` bytes of the block.
On `demoLib` the block is `h`, NUL, `i` and only `h` is printed; on `overLib` the
block is `ok` and `ok!` is printed. -/
theorem printed_text_is_not_the_block :
    (main demoLib 0 10).st.out = [104, 10] ∧
    (∃ st, scanLoop demoLib 4096 10 NULL (prologue demoLib 0).2 = Scan.exited 501 st ∧
      blockBytes (demoLib.mem (dataBlock demoLib 4096 st).2.2) (dataBlock demoLib 4096 st).2.1
        = [104, 0, 105]) ∧
    (main overLib 0 10).st.out = bytes "ok!" ++ [10] ∧
    (∃ st, scanLoop overLib 4096 10 NULL (prologue overLib 0).2 = Scan.exited 501 st ∧
      blockBytes (overLib.mem (dataBlock overLib 4096 st).2.2) (dataBlock overLib 4096 st).2.1
        = bytes "ok") ∧
    ¬ (∀ (L : Libarchive Nat) (s : Nat) (hs : List Header) (fuel : Nat) (e : Ptr) (st : St Nat),
        Serves L (prologue L s).1 hs NULL (prologue L s).2.lib →
        (∃ h ∈ hs, h.name = target) →
        scanLoop L (prologue L s).1 fuel NULL (prologue L s).2 = Scan.exited e st →
        (main L s fuel).st.out
          = blockBytes (L.mem (dataBlock L (prologue L s).1 st).2.2)
              (dataBlock L (prologue L s).1 st).2.1 ++ [10]) := by
  refine ⟨by decide, ⟨_, rfl, by decide⟩, by decide, ⟨_, rfl, by decide⟩, fun hall => ?_⟩
  have := hall demoLib 0 demoHeaders 10 501 _ (by decide) ⟨⟨501, target⟩, by decide, rfl⟩ rfl
  revert this
  decide

/-- C2, amended: when the archive has an entry named `content/nested/second` and the
first zero byte at or after `buffer` is at offset `z` with `z ≤ size`, the program
writes exactly the first `z` bytes of the block and a newline, and returns; when
`z = size` (no zero byte in the block, one right after it) that is the whole
block. -/
theorem prints_block_up_to_first_zero {σ : Type} (L : Libarchive σ) (s : σ)
    (hs : List Header) (k fuel : Nat) (h : Header)
    (hsv : Serves L (prologue L s).1 hs NULL (prologue L s).2.lib)
    (hk : hs.get? k = some h) (hname : h.name = target)
    (hfirst : ∀ j, j < k → ∀ x, hs.get? j = some x → x.name ≠ target)
    (hfuel : k < fuel) :
    ∃ st, scanLoop L (prologue L s).1 fuel NULL (prologue L s).2 = Scan.exited h.entry st ∧
      ∀ z : Nat,
        (dataBlock L (prologue L s).1 st).2.1.buffer ≠ NULL →
        (L.mem (dataBlock L (prologue L s).1 st).2.2).get?
          ((dataBlock L (prologue L s).1 st).2.1.buffer + z) = some 0 →
        (∀ j, j < z → (L.mem (dataBlock L (prologue L s).1 st).2.2).get?
          ((dataBlock L (prologue L s).1 st).2.1.buffer + j) ≠ some 0) →
        z ≤ (dataBlock L (prologue L s).1 st).2.1.size →
        (main L s fuel).returns = true ∧
        (main L s fuel).st.out
          = (blockBytes (L.mem (dataBlock L (prologue L s).1 st).2.2)
              (dataBlock L (prologue L s).1 st).2.1).take z ++ [10] ∧
        (z = (dataBlock L (prologue L s).1 st).2.1.size →
          (main L s fuel).st.out
            = blockBytes (L.mem (dataBlock L (prologue L s).1 st).2.2)
                (dataBlock L (prologue L s).1 st).2.1 ++ [10]) := by
  obtain ⟨st, h1, _⟩ := scanLoop_serves_match L (prologue L s).1 h hname hs k fuel NULL
    (prologue L s).2 hsv hk hfirst hfuel
  have hout : st.out = [] := by
    have := (scanLoop_st L (prologue L s).1 fuel NULL (prologue L s).2).choose_spec.2.2
    rw [h1] at this
    simpa [Scan.st, prologue_out] using this
  refine ⟨st, h1, fun z hb hz hfz hle => ?_⟩
  have hp := puts_of_first_zero _ _ z hb hz hfz hle
  have hm := main_of_exited L s fuel _ st h1
  rw [epilogue_returned L _ st _ hp] at hm
  have ho : (main L s fuel).st.out
      = (blockBytes (L.mem (dataBlock L (prologue L s).1 st).2.2)
          (dataBlock L (prologue L s).1 st).2.1).take z ++ [10] := by
    rw [hm]
    simp [Outcome.st, hout]
  refine ⟨by rw [hm]; rfl, ho, fun hzs => ?_⟩
  rw [ho, hzs]
  simp [blockBytes]

/-- C2 amended, at `textLib`: the block `ok!` is followed by a NUL and is printed
whole. -/
theorem prints_block_up_to_first_zero_witness :
    (main textLib 0 10).returns = true ∧
    (main textLib 0 10).st.out = bytes "ok!" ++ [10] := by
  obtain ⟨st, _, hz⟩ := prints_block_up_to_first_zero textLib 0 demoHeaders 1 10 ⟨501, target⟩
    (by decide) (by decide) rfl
    (by
      intro j hj x hx
      interval_cases j
      simp only [demoHeaders, List.get?_cons_zero, Option.some.injEq] at hx
      subst hx
      decide)
    (by decide)
  have h3 := hz 3 (by show (58 : Nat) ≠ 0; decide) (by show testMem.get? (58 + 3) = some 0; decide)
    (by
      intro j hj
      show testMem.get? (58 + j) ≠ some 0
      interval_cases j <;> decide)
    (by show 3 ≤ 3; decide)
  exact ⟨h3.1, h3.2.2 rfl⟩

/-- C3 as stated fails: not every run that ends gives exit status 0.  On `nullLib`
no entry matches, the data read fails and leaves `buffer` NULL, and the run stops
in `puts(NULL)` without an exit status from `main`. -/
theorem no_exit_status_after_null_buffer :
    Serves nullLib 4096 [⟨500, bytes "first"⟩] NULL 0 ∧
    (∃ st, main nullLib 0 5 = Outcome.undefined st ∧ st.trace.getLast? = some (Call.puts NULL)) ∧
    (main nullLib 0 5).ended = true ∧
    (main nullLib 0 5).exitStatus = none ∧
    ¬ (∀ (L : Libarchive Nat) (s fuel : Nat),
        (main L s fuel).ended = true → (main L s fuel).exitStatus = some 0) := by
  refine ⟨by decide, ⟨_, rfl, by decide⟩, by decide, by decide, fun hall => ?_⟩
  have := hall nullLib 0 5 (by decide)
  revert this
  decide

/-- C3, amended: when the loop is left and `buffer` then points to a C string, `main`
returns 0, whatever the library calls returned; the return code of
`archive_read_open_filename` in particular changes nothing.  No run of `main`
returns another status. -/
theorem exit_status_zero_of_text {σ : Type} (L : Libarchive σ) (s : σ) (fuel : Nat)
    (e : Ptr) (st : St σ) (text : List Nat)
    (hscan : scanLoop L (prologue L s).1 fuel NULL (prologue L s).2 = Scan.exited e st)
    (hbuf : readCStr (L.mem (dataBlock L (prologue L s).1 st).2.2)
      (dataBlock L (prologue L s).1 st).2.1.buffer = some text) :
    (main L s fuel).returns = true ∧
    (main L s fuel).exitStatus = some 0 ∧
    (∀ code, (main (withOpenCode L code) s fuel).exitStatus = some 0) ∧
    (∀ fuel1 c, (main L s fuel1).exitStatus = some c → c = 0) := by
  have hm := main_of_text L s fuel e st text hscan hbuf
  refine ⟨by rw [hm]; rfl, by rw [hm]; rfl, fun code => ?_, fun fuel1 c hc => ?_⟩
  · rw [main_withOpenCode, hm]
    rfl
  · have hr : (main L s fuel1).returns = true := by
      cases hm1 : main L s fuel1 <;> simp_all [Outcome.exitStatus, Outcome.returns]
    obtain ⟨e1, st1, text1, h1, h2⟩ := (main_returns_iff L s fuel1).1 hr
    rw [main_of_exited L s fuel1 e1 st1 h1, epilogue_returned L _ st1 text1 h2] at hc
    simpa [Outcome.exitStatus] using hc.symm

/-- C3 amended, at `failLib`: the open fails, the archive has no entry and the data
read fails with `buffer` set to readable text; the exit status is 0. -/
theorem exit_status_zero_of_text_witness :
    (failLib.archive_read_open_filename 4096 "/tmp/test.zip" 1 0).1 = -30 ∧
    (failLib.archive_read_data_block 4096 ⟨NULL, 0, 0⟩ 0).1 = -30 ∧
    (main failLib 0 5).returns = true ∧
    (main failLib 0 5).exitStatus = some 0 :=
  have h := exit_status_zero_of_text failLib 0 5 NULL
    (scanLoop failLib 4096 5 NULL (prologue failLib 0).2).st (bytes "ok!") rfl (by decide)
  ⟨by decide, by decide, h.1, h.2.1⟩

/-- C4: nothing tests `buffer` before `puts`.  When the loop has been left, the one
pointer passed to `puts` is the value that `archive_read_data_block`, called with
`buffer = NULL`, left in `buffer`; if that value is NULL, `puts(NULL)` is called and
the run has no defined result.  Some library behaviour makes this happen. -/
theorem puts_receives_unchecked_buffer {σ : Type} (L : Libarchive σ) (s : σ) (fuel : Nat)
    (e : Ptr) (st : St σ)
    (hscan : scanLoop L (prologue L s).1 fuel NULL (prologue L s).2 = Scan.exited e st) :
    (∀ p, Call.puts p ∈ (main L s fuel).st.trace ↔
      p = (L.archive_read_data_block (prologue L s).1 ⟨NULL, 0, 0⟩ st.lib).2.1.buffer) ∧
    ((L.archive_read_data_block (prologue L s).1 ⟨NULL, 0, 0⟩ st.lib).2.1.buffer = NULL →
      Call.puts NULL ∈ (main L s fuel).st.trace ∧ (main L s fuel).returns = false) ∧
    (∃ (L0 : Libarchive Nat) (s0 fuel0 : Nat), Call.puts NULL ∈ (main L0 s0 fuel0).st.trace) := by
  obtain ⟨ext, htr, hin⟩ := exited_trace L s fuel e st hscan
  have hmem : ∀ p, Call.puts p ∈ (main L s fuel).st.trace ↔
      p = (L.archive_read_data_block (prologue L s).1 ⟨NULL, 0, 0⟩ st.lib).2.1.buffer := by
    intro p
    rw [main_of_exited L s fuel e st hscan, epilogue_trace, htr]
    have h1 : Call.puts p ∉ ext := fun hc => by simpa [Call.inLoop] using hin _ hc
    by_cases hr : (epilogue L (prologue L s).1 st).returns = true <;>
      simp [hr, h1, setupCalls, dataBlock]
  refine ⟨hmem, fun hnull => ⟨(hmem NULL).2 hnull.symm, ?_⟩, nullLib, 0, 5, by decide⟩
  rw [main_of_exited L s fuel e st hscan, epilogue_undefined L _ st ?_]
  · rfl
  · show puts _ (L.archive_read_data_block (prologue L s).1 ⟨NULL, 0, 0⟩ st.lib).2.1.buffer = none
    rw [hnull]
    rfl

/-- C4 at `nullLib`: the scan ends on `ARCHIVE_EOF`, the data read leaves `buffer`
untouched, and `puts(NULL)` is called. -/
theorem puts_receives_unchecked_buffer_witness :
    Call.puts NULL ∈ (main nullLib 0 5).st.trace ∧ (main nullLib 0 5).returns = false :=
  ((puts_receives_unchecked_buffer nullLib 0 5 500
    (scanLoop nullLib 4096 5 NULL (prologue nullLib 0).2).st rfl).2.1 (by decide))

/-- C5 as stated fails: the handle is not released on every run that ends.  On
`nullLib` the loop is left on `ARCHIVE_EOF`, the data read leaves `buffer` NULL,
and the run stops in `puts(NULL)`: no close and no free call is made. -/
theorem reader_not_released_after_null_buffer :
    (∃ st, scanLoop nullLib 4096 5 NULL (prologue nullLib 0).2 = Scan.exited 500 st ∧
      (nullLib.archive_read_next_header 4096 500 1).1 = nullLib.ARCHIVE_EOF) ∧
    (main nullLib 0 5).ended = true ∧
    (main nullLib 0 5).st.trace.countP Call.isClose = 0 ∧
    (main nullLib 0 5).st.trace.countP Call.isFree = 0 ∧
    ¬ (∀ (L : Libarchive Nat) (s fuel : Nat), (main L s fuel).ended = true →
        ∃ pre, (main L s fuel).st.trace
          = pre ++ [Call.archive_read_close (L.archive_read_new s).1,
                    Call.archive_read_free (L.archive_read_new s).1]) := by
  refine ⟨⟨_, rfl, by decide⟩, by decide, by decide, by decide, fun hall => ?_⟩
  obtain ⟨pre, hpre⟩ := hall nullLib 0 5 (by decide)
  have h0 : (main nullLib 0 5).st.trace.countP Call.isFree = 0 := by decide
  rw [hpre] at h0
  simp [Call.isFree, List.countP_cons] at h0

/-- C5, amended: when the loop is left, on a match or on `ARCHIVE_EOF`, and `buffer`
then points to a C string, the run returns and its trace ends with
`archive_read_close(reader)` and then `archive_read_free(reader)` on the handle
that `archive_read_new` gave; these are the only close and free calls, so each is
made once and nothing follows the free. -/
theorem reader_released_of_text {σ : Type} (L : Libarchive σ) (s : σ) (fuel : Nat)
    (e : Ptr) (st : St σ) (text : List Nat)
    (hscan : scanLoop L (prologue L s).1 fuel NULL (prologue L s).2 = Scan.exited e st)
    (hbuf : readCStr (L.mem (dataBlock L (prologue L s).1 st).2.2)
      (dataBlock L (prologue L s).1 st).2.1.buffer = some text) :
    (main L s fuel).returns = true ∧
    (main L s fuel).st.trace
      = (st.trace ++ [Call.archive_read_data_block (L.archive_read_new s).1,
            Call.puts (dataBlock L (prologue L s).1 st).2.1.buffer])
        ++ [Call.archive_read_close (L.archive_read_new s).1,
            Call.archive_read_free (L.archive_read_new s).1] ∧
    (∀ c ∈ st.trace ++ [Call.archive_read_data_block (L.archive_read_new s).1,
            Call.puts (dataBlock L (prologue L s).1 st).2.1.buffer],
      c.isClose = false ∧ c.isFree = false) ∧
    (main L s fuel).st.trace.countP Call.isClose = 1 ∧
    (main L s fuel).st.trace.countP Call.isFree = 1 := by
  have hm := main_of_text L s fuel e st text hscan hbuf
  obtain ⟨ext, htr, hin⟩ := exited_trace L s fuel e st hscan
  have hpre : ∀ c ∈ st.trace ++ [Call.archive_read_data_block (L.archive_read_new s).1,
      Call.puts (dataBlock L (prologue L s).1 st).2.1.buffer],
      c.isClose = false ∧ c.isFree = false := by
    intro c hc
    rw [htr] at hc
    simp only [List.mem_append, List.mem_cons, List.mem_singleton, List.not_mem_nil,
      or_false] at hc
    rcases hc with (hc | hc) | hc | hc
    · simp only [setupCalls, List.mem_cons, List.mem_singleton, List.not_mem_nil,
        or_false] at hc
      rcases hc with hc | hc | hc | hc | hc <;> subst hc <;> exact ⟨rfl, rfl⟩
    · exact ⟨(inLoop_kinds c (hin c hc)).1, (inLoop_kinds c (hin c hc)).2.1⟩
    · subst hc
      exact ⟨rfl, rfl⟩
    · subst hc
      exact ⟨rfl, rfl⟩
  have htrace : (main L s fuel).st.trace
      = (st.trace ++ [Call.archive_read_data_block (L.archive_read_new s).1,
            Call.puts (dataBlock L (prologue L s).1 st).2.1.buffer])
        ++ [Call.archive_read_close (L.archive_read_new s).1,
            Call.archive_read_free (L.archive_read_new s).1] := by
    rw [hm]
    simp [Outcome.st, prologue]
  have hc0 : (st.trace ++ [Call.archive_read_data_block (L.archive_read_new s).1,
      Call.puts (dataBlock L (prologue L s).1 st).2.1.buffer]).countP Call.isClose = 0 := by
    rw [List.countP_eq_zero]
    intro c hc
    simp [(hpre c hc).1]
  have hf0 : (st.trace ++ [Call.archive_read_data_block (L.archive_read_new s).1,
      Call.puts (dataBlock L (prologue L s).1 st).2.1.buffer]).countP Call.isFree = 0 := by
    rw [List.countP_eq_zero]
    intro c hc
    simp [(hpre c hc).2]
  refine ⟨by rw [hm]; rfl, htrace, hpre, ?_, ?_⟩
  · rw [htrace, List.countP_append, hc0]
    simp [Call.isClose, List.countP_cons]
  · rw [htrace, List.countP_append, hf0]
    simp [Call.isFree, List.countP_cons]

/-- C5 amended, on a run that leaves the loop on a match (`textLib`) and on one that
leaves it on `ARCHIVE_EOF` (`failLib`). -/
theorem reader_released_of_text_witness :
    ((main textLib 0 10).returns = true ∧
      (main textLib 0 10).st.trace.getLast? = some (Call.archive_read_free 4096) ∧
      (main textLib 0 10).st.trace.countP Call.isClose = 1 ∧
      (main textLib 0 10).st.trace.countP Call.isFree = 1) ∧
    ((main failLib 0 5).returns = true ∧
      (main failLib 0 5).st.trace.getLast? = some (Call.archive_read_free 4096) ∧
      (main failLib 0 5).st.trace.countP Call.isClose = 1 ∧
      (main failLib 0 5).st.trace.countP Call.isFree = 1) :=
  have h1 := reader_released_of_text textLib 0 10 501
    (scanLoop textLib 4096 10 NULL (prologue textLib 0).2).st (bytes "ok!") rfl (by decide)
  have h2 := reader_released_of_text failLib 0 5 NULL
    (scanLoop failLib 4096 5 NULL (prologue failLib 0).2).st (bytes "ok!") rfl (by decide)
  ⟨⟨h1.1, by decide, h1.2.2.2.1, h1.2.2.2.2⟩, ⟨h2.1, by decide, h2.2.2.2.1, h2.2.2.2.2⟩⟩

/-- C6: header reads are not checked for errors.  After a header read that returns
any code other than `ARCHIVE_EOF`, the pass goes on to `archive_entry_pathname` on
`entry` and to `strcmp`, and the loop makes another pass when the name differs
from the hardcoded one.  The return code of `archive_read_open_filename` changes
nothing in the run, and the sixth call of a run is always the first header
read. -/
theorem header_codes_unchecked {σ : Type} (L : Libarchive σ) (reader e : Ptr) (st : St σ)
    (s : σ) (fuel : Nat)
    (hrc : (L.archive_read_next_header reader e st.lib).1 ≠ L.ARCHIVE_EOF) :
    (loopBody L reader e st).st.trace
      = st.trace ++ [Call.archive_read_next_header reader,
          Call.archive_entry_pathname (L.archive_read_next_header reader e st.lib).2.1,
          Call.strcmp (L.archive_entry_pathname (L.archive_read_next_header reader e st.lib).2.1
            (L.archive_read_next_header reader e st.lib).2.2).1] ∧
    (∀ name, readCStr
        (L.mem (L.archive_entry_pathname (L.archive_read_next_header reader e st.lib).2.1
          (L.archive_read_next_header reader e st.lib).2.2).2)
        (L.archive_entry_pathname (L.archive_read_next_header reader e st.lib).2.1
          (L.archive_read_next_header reader e st.lib).2.2).1 = some name →
      name ≠ target →
      scanLoop L reader (fuel + 1) e st
        = scanLoop L reader fuel (L.archive_read_next_header reader e st.lib).2.1
            (afterCompare L reader e st)) ∧
    (∀ code, main (withOpenCode L code) s fuel = main L s fuel) ∧
    (main L s (fuel + 1)).st.trace.get? 5
      = some (Call.archive_read_next_header (L.archive_read_new s).1) := by
  refine ⟨?_, ?_, fun code => main_withOpenCode L code s fuel, ?_⟩
  · rw [loopBody_compare L reader e st hrc]
    cases compared L reader e st with
    | none => rfl
    | some c => by_cases hc : c = 0 <;> simp [hc, Step.st, afterCompare]
  · intro name hname hne
    obtain ⟨c, hc, hc0⟩ := strcmp_of_readCStr _ _ _ hname
    exact scanLoop_continue L reader fuel e st c hrc hc (fun h0 => hne (hc0.1 h0))
  · obtain ⟨ext, hext⟩ := main_trace_extends L s (fuel + 1)
    obtain ⟨ext1, hext1⟩ := scanLoop_first_call L (prologue L s).1 fuel NULL (prologue L s).2
    rw [hext, hext1, prologue_trace]
    simp [setupCalls, prologue]

/-- C6 at `warnLib`: after a header read that returns `ARCHIVE_WARN` the pathname is
fetched and compared and the scan goes on; the run reads four headers, all with
error codes, and ends on the fourth. -/
theorem header_codes_unchecked_witness :
    (warnLib.archive_read_next_header 4096 NULL 0).1 = -20 ∧
    (loopBody warnLib 4096 NULL (prologue warnLib 0).2).st.trace
      = setupCalls 4096 ++ [Call.archive_read_next_header 4096,
          Call.archive_entry_pathname 500, Call.strcmp 1] ∧
    scanLoop warnLib 4096 (9 + 1) NULL (prologue warnLib 0).2
      = scanLoop warnLib 4096 9 500 (afterCompare warnLib 4096 NULL (prologue warnLib 0).2) ∧
    nextHeaderCalls (main warnLib 0 10).st.trace = 4 :=
  have h := header_codes_unchecked warnLib 4096 NULL (prologue warnLib 0).2 0 9 (by decide)
  ⟨by decide, h.1, h.2.1 (bytes "first") (by decide) (by decide), by decide⟩

/-- C7: the match is equality with the hardcoded path.  In a pass whose header read
did not return `ARCHIVE_EOF` and whose pathname is the C string `name`, the loop
is left exactly when `name` equals `content/nested/second` byte for byte, and
goes round again exactly when it does not; names that differ in case, extend the
path, are cut short, or carry a leading `./` or `/` are not equal to it. -/
theorem loop_stops_iff_name_equal {σ : Type} (L : Libarchive σ) (reader e : Ptr) (st : St σ)
    (name : List Nat)
    (hrc : (L.archive_read_next_header reader e st.lib).1 ≠ L.ARCHIVE_EOF)
    (hname : readCStr
        (L.mem (L.archive_entry_pathname (L.archive_read_next_header reader e st.lib).2.1
          (L.archive_read_next_header reader e st.lib).2.2).2)
        (L.archive_entry_pathname (L.archive_read_next_header reader e st.lib).2.1
          (L.archive_read_next_header reader e st.lib).2.2).1 = some name) :
    ((loopBody L reader e st).isBrk = true ↔ name = target) ∧
    ((loopBody L reader e st).isCont = true ↔ name ≠ target) ∧
    (∀ v ∈ [bytes "Content/nested/second", bytes "CONTENT/NESTED/SECOND",
            bytes "content/nested/second/", bytes "content/nested/second.txt",
            bytes "content/nested/secon", bytes "content/nested", bytes "",
            bytes "./content/nested/second", bytes "/content/nested/second"],
      v ≠ target) := by
  obtain ⟨c, hc, hc0⟩ := strcmp_of_readCStr _ _ _ hname
  have hbody := loopBody_compare L reader e st hrc
  rw [show compared L reader e st = some c from hc] at hbody
  rw [hbody]
  refine ⟨?_, ?_, by decide⟩
  · by_cases h0 : c = 0
    · simp [h0, Step.isBrk, hc0.1 h0]
    · have hn : ¬ name = target := fun hn => h0 (hc0.2 hn)
      simp [h0, hn, Step.isBrk]
  · by_cases h0 : c = 0
    · simp [h0, Step.isCont, hc0.1 h0]
    · have hn : ¬ name = target := fun hn => h0 (hc0.2 hn)
      simp [h0, hn, Step.isCont]

/-- C7 at `demoLib`: the first pass reads `first` and goes round again, the second
reads the hardcoded name and leaves the loop. -/
theorem loop_stops_iff_name_equal_witness :
    (loopBody demoLib 4096 NULL (prologue demoLib 0).2).isCont = true ∧
    (loopBody demoLib 4096 500 (afterCompare demoLib 4096 NULL (prologue demoLib 0).2)).isBrk
      = true :=
  ⟨(loop_stops_iff_name_equal demoLib 4096 NULL (prologue demoLib 0).2 (bytes "first")
      (by decide) (by decide)).2.1.2 (by decide),
   (loop_stops_iff_name_equal demoLib 4096 500
      (afterCompare demoLib 4096 NULL (prologue demoLib 0).2) target
      (by decide) (by decide)).1.2 rfl⟩

/-- C8: termination of the scan.  On an archive of `n` headers followed by
`ARCHIVE_EOF` the loop, given more than `n` passes, is left after at most `n + 1`
header reads, and after exactly `n + 1` when no header is named
`content/nested/second`.  On a library that never returns `ARCHIVE_EOF` and never
yields that pathname the loop is not left: whatever the bound on the passes, all
of them are used and the run of `main` does not get past the loop. -/
theorem scan_terminates_or_runs_forever {σ τ : Type} (L : Libarchive σ) (s : σ)
    (hs : List Header) (fuel : Nat)
    (hsv : Serves L (prologue L s).1 hs NULL (prologue L s).2.lib)
    (hfuel : hs.length < fuel)
    (L1 : Libarchive τ) (s1 : τ)
    (hnever : ∀ e t,
      (L1.archive_read_next_header (prologue L1 s1).1 e t).1 ≠ L1.ARCHIVE_EOF ∧
      ∃ name, readCStr
        (L1.mem (L1.archive_entry_pathname
          (L1.archive_read_next_header (prologue L1 s1).1 e t).2.1
          (L1.archive_read_next_header (prologue L1 s1).1 e t).2.2).2)
        (L1.archive_entry_pathname
          (L1.archive_read_next_header (prologue L1 s1).1 e t).2.1
          (L1.archive_read_next_header (prologue L1 s1).1 e t).2.2).1 = some name ∧
        name ≠ target) :
    (∃ e1 st1, scanLoop L (prologue L s).1 fuel NULL (prologue L s).2 = Scan.exited e1 st1 ∧
      nextHeaderCalls st1.trace ≤ hs.length + 1 ∧
      nextHeaderCalls (main L s fuel).st.trace ≤ hs.length + 1 ∧
      ((∀ x ∈ hs, x.name ≠ target) →
        nextHeaderCalls st1.trace = hs.length + 1 ∧
        nextHeaderCalls (main L s fuel).st.trace = hs.length + 1)) ∧
    (∀ fuel1, ∃ st1,
      scanLoop L1 (prologue L1 s1).1 fuel1 NULL (prologue L1 s1).2 = Scan.timeout st1 ∧
      main L1 s1 fuel1 = Outcome.timeout st1 ∧
      nextHeaderCalls st1.trace = fuel1) := by
  constructor
  · obtain ⟨e1, st1, h1, h2, h3⟩ := scanLoop_serves L (prologue L s).1 hs fuel NULL
      (prologue L s).2 hsv hfuel
    rw [prologue_trace, nextHeaderCalls_setup, Nat.zero_add] at h2 h3
    refine ⟨e1, st1, h1, h2, ?_, fun hno => ⟨h3 hno, ?_⟩⟩
    · rw [main_of_exited L s fuel e1 st1 h1, nextHeaderCalls_epilogue]
      exact h2
    · rw [main_of_exited L s fuel e1 st1 h1, nextHeaderCalls_epilogue]
      exact h3 hno
  · intro fuel1
    obtain ⟨st1, h1, h2⟩ := scanLoop_never L1 (prologue L1 s1).1 hnever fuel1 NULL
      (prologue L1 s1).2
    rw [prologue_trace, nextHeaderCalls_setup, Nat.zero_add] at h2
    exact ⟨st1, h1, by simp [main, h1], h2⟩

/-- C8 at `nullLib`, an archive of one header that does not match (two header
reads), and at `stuck`, which returns `ARCHIVE_FATAL` for ever. -/
theorem scan_terminates_or_runs_forever_witness :
    (∃ e1 st1, scanLoop nullLib 4096 5 NULL (prologue nullLib 0).2 = Scan.exited e1 st1 ∧
      nextHeaderCalls st1.trace = 2 ∧ nextHeaderCalls (main nullLib 0 5).st.trace = 2) ∧
    (∀ fuel1, ∃ st1, main stuck () fuel1 = Outcome.timeout st1 ∧
      nextHeaderCalls st1.trace = fuel1) := by
  have h := scan_terminates_or_runs_forever nullLib 0 [⟨500, bytes "first"⟩] 5
    (by decide) (by decide) stuck ()
    (fun e t => ⟨by show (-30 : Int) ≠ 1; decide, [120], rfl, by decide⟩)
  obtain ⟨⟨e1, st1, h1, _, _, h2⟩, h3⟩ := h
  have h4 := h2 (by decide)
  refine ⟨⟨e1, st1, h1, h4.1, h4.2⟩, fun fuel1 => ?_⟩
  obtain ⟨st2, _, h5, h6⟩ := h3 fuel1
  exact ⟨st2, h5, h6⟩

/-- C9 as stated fails: what follows the loop is not always data read, `puts`, close
and free, and the program does not always print.  On `nullLib`, an archive with no
entry named `content/nested/second`, the data read leaves `buffer` NULL and the
run stops in `puts(NULL)`: nothing is written and no close or free follows. -/
theorem calls_stop_at_puts_null :
    Serves nullLib 4096 [⟨500, bytes "first"⟩] NULL 0 ∧
    (main nullLib 0 5).st.trace
      = setupCalls 4096 ++ [Call.archive_read_next_header 4096,
          Call.archive_entry_pathname 500, Call.strcmp 1,
          Call.archive_read_next_header 4096,
          Call.archive_read_data_block 4096, Call.puts NULL] ∧
    (main nullLib 0 5).st.out = [] ∧
    (main nullLib 0 5).ended = true ∧
    ¬ (∀ (L : Libarchive Nat) (s fuel : Nat) (hs : List Header),
        Serves L (prologue L s).1 hs NULL (prologue L s).2.lib →
        (∀ x ∈ hs, x.name ≠ target) → hs.length < fuel →
        (main L s fuel).st.out ≠ [] ∧
        ∃ pre p, (main L s fuel).st.trace
          = pre ++ [Call.archive_read_data_block (prologue L s).1, Call.puts p,
              Call.archive_read_close (prologue L s).1,
              Call.archive_read_free (prologue L s).1]) := by
  refine ⟨by decide, by decide, by decide, by decide, fun hall => ?_⟩
  have := (hall nullLib 0 5 [⟨500, bytes "first"⟩] (by decide) (by decide) (by decide)).1
  revert this
  decide

/-- C9, amended: the program does not record why the scan ended.  However the loop
was left, the run is `epilogue` on the state at the end of the loop, whatever
`entry` is: one `archive_read_data_block`, then one `puts` on the buffer it left.
When that buffer points to a C string, the string and a newline are written, then
come `archive_read_close` and `archive_read_free`, and `main` returns 0.  On an
archive with no header named `content/nested/second` the loop is left and the
program still reads a data block and still calls `puts`. -/
theorem after_loop_calls_fixed {σ : Type} (L : Libarchive σ) (s : σ) (fuel : Nat) :
    (∀ e st, scanLoop L (prologue L s).1 fuel NULL (prologue L s).2 = Scan.exited e st →
      main L s fuel = epilogue L (prologue L s).1 st ∧
      (∃ rest, (main L s fuel).st.trace
          = st.trace ++ [Call.archive_read_data_block (prologue L s).1,
              Call.puts (dataBlock L (prologue L s).1 st).2.1.buffer] ++ rest ∧
        (rest = [] ∨ rest = [Call.archive_read_close (prologue L s).1,
                             Call.archive_read_free (prologue L s).1])) ∧
      (main L s fuel).st.trace.countP Call.isDataBlock = 1 ∧
      (main L s fuel).st.trace.countP Call.isPuts = 1 ∧
      (∀ text, readCStr (L.mem (dataBlock L (prologue L s).1 st).2.2)
          (dataBlock L (prologue L s).1 st).2.1.buffer = some text →
        main L s fuel =
          Outcome.returned 0
            ⟨(L.archive_read_free (prologue L s).1
                (L.archive_read_close (prologue L s).1
                  (dataBlock L (prologue L s).1 st).2.2).2).2,
              st.trace ++ [Call.archive_read_data_block (prologue L s).1,
                Call.puts (dataBlock L (prologue L s).1 st).2.1.buffer,
                Call.archive_read_close (prologue L s).1,
                Call.archive_read_free (prologue L s).1],
              text ++ [10]⟩)) ∧
    (∀ hs, Serves L (prologue L s).1 hs NULL (prologue L s).2.lib →
      (∀ x ∈ hs, x.name ≠ target) → hs.length < fuel →
      ∃ e st, scanLoop L (prologue L s).1 fuel NULL (prologue L s).2 = Scan.exited e st ∧
        nextHeaderCalls st.trace = hs.length + 1 ∧
        (main L s fuel).st.trace.getLast? ≠ some (Call.archive_read_next_header (prologue L s).1) ∧
        (main L s fuel).st.trace.countP Call.isDataBlock = 1 ∧
        (main L s fuel).st.trace.countP Call.isPuts = 1) := by
  have key : ∀ e st, scanLoop L (prologue L s).1 fuel NULL (prologue L s).2 = Scan.exited e st →
      (∃ rest, (main L s fuel).st.trace
          = st.trace ++ [Call.archive_read_data_block (prologue L s).1,
              Call.puts (dataBlock L (prologue L s).1 st).2.1.buffer] ++ rest ∧
        (rest = [] ∨ rest = [Call.archive_read_close (prologue L s).1,
                             Call.archive_read_free (prologue L s).1])) ∧
      (main L s fuel).st.trace.countP Call.isDataBlock = 1 ∧
      (main L s fuel).st.trace.countP Call.isPuts = 1 := by
    intro e st hscan
    obtain ⟨ext, htr, hin⟩ := exited_trace L s fuel e st hscan
    have hm := main_of_exited L s fuel e st hscan
    have hd : ext.countP Call.isDataBlock = 0 := by
      rw [List.countP_eq_zero]
      intro c hc
      simp [(inLoop_kinds c (hin c hc)).2.2.1]
    have hp : ext.countP Call.isPuts = 0 := by
      rw [List.countP_eq_zero]
      intro c hc
      simp [(inLoop_kinds c (hin c hc)).2.2.2]
    have htrace := epilogue_trace L (prologue L s).1 st
    rw [← hm] at htrace
    refine ⟨⟨_, htrace, ?_⟩, ?_, ?_⟩
    · by_cases hr : (main L s fuel).returns = true <;> simp [hr]
    · rw [htrace, htr]
      by_cases hr : (main L s fuel).returns = true <;>
        simp [hr, hd, setupCalls, Call.isDataBlock, List.countP_cons]
    · rw [htrace, htr]
      by_cases hr : (main L s fuel).returns = true <;>
        simp [hr, hp, setupCalls, Call.isPuts, List.countP_cons]
  refine ⟨fun e st hscan => ⟨main_of_exited L s fuel e st hscan, (key e st hscan).1,
    (key e st hscan).2.1, (key e st hscan).2.2,
    fun text htext => main_of_text L s fuel e st text hscan htext⟩, fun hs hsv hno hfuel => ?_⟩
  obtain ⟨e1, st1, h1, _, h3⟩ := scanLoop_serves L (prologue L s).1 hs fuel NULL
    (prologue L s).2 hsv hfuel
  have h4 := h3 hno
  rw [prologue_trace, nextHeaderCalls_setup, Nat.zero_add] at h4
  obtain ⟨⟨rest, hrest, hcases⟩, hd, hp⟩ := key e1 st1 h1
  refine ⟨e1, st1, h1, h4, ?_, hd, hp⟩
  rw [hrest]
  rcases hcases with hr | hr <;> subst hr <;> simp

/-- C9 amended, at `failLib`, where the loop is left on `ARCHIVE_EOF`, and at
`textLib`, where it is left on a match: in both runs the data read and `puts` are
followed by close and free, `ok!` is written and `main` returns. -/
theorem after_loop_calls_fixed_witness :
    ((main failLib 0 5).st.trace
        = setupCalls 4096 ++ [Call.archive_read_next_header 4096,
            Call.archive_read_data_block 4096, Call.puts 58,
            Call.archive_read_close 4096, Call.archive_read_free 4096] ∧
      (main failLib 0 5).st.out = bytes "ok!" ++ [10] ∧
      (main failLib 0 5).returns = true) ∧
    ((main textLib 0 10).st.trace.countP Call.isDataBlock = 1 ∧
      (main textLib 0 10).st.trace.countP Call.isPuts = 1 ∧
      (main textLib 0 10).st.out = bytes "ok!" ++ [10] ∧
      (main textLib 0 10).returns = true) := by
  have h1 := (after_loop_calls_fixed failLib 0 5).2 [] (by decide) (by decide) (by decide)
  have h2 := (after_loop_calls_fixed failLib 0 5).1 NULL
    (scanLoop failLib 4096 5 NULL (prologue failLib 0).2).st rfl
  have h3 := (after_loop_calls_fixed textLib 0 10).1 501
    (scanLoop textLib 4096 10 NULL (prologue textLib 0).2).st rfl
  have e2 := h2.2.2.2.2 (bytes "ok!") (by decide)
  have e3 := h3.2.2.2.2 (bytes "ok!") (by decide)
  refine ⟨⟨?_, ?_, ?_⟩, h3.2.2.1, h3.2.2.2.1, ?_, ?_⟩
  · rw [e2]
    decide
  · rw [e2]
    rfl
  · rw [e2]
    rfl
  · rw [e3]
    rfl
  · rw [e3]
    rfl

/-- C10: the `size` and `offset` results of `archive_read_data_block` are never
read.  Two libraries that differ only in the `size` and `offset` they report give
the same run: same exit status, same calls with the same arguments (that of
`puts` among them), same text.  The text is the C string at `buffer` and a
newline, so its length is set by the first zero byte at or after `buffer`. -/
theorem size_offset_never_used {σ : Type} (L : Libarchive σ) (s : σ) (fuel : Nat)
    (sz1 sz2 : σ → Nat) (off1 off2 : σ → Int) :
    main (reporting L sz1 off1) s fuel = main (reporting L sz2 off2) s fuel ∧
    (∀ a b t, ((reporting L sz1 off1).archive_read_data_block a b t).2.1.size = sz1 t ∧
      ((reporting L sz1 off1).archive_read_data_block a b t).2.1.offset = off1 t) ∧
    (∀ e st text,
      scanLoop L (prologue L s).1 fuel NULL (prologue L s).2 = Scan.exited e st →
      readCStr (L.mem (dataBlock L (prologue L s).1 st).2.2)
        (dataBlock L (prologue L s).1 st).2.1.buffer = some text →
      (main (reporting L sz1 off1) s fuel).st.out = text ++ [10]) := by
  refine ⟨by rw [main_reporting, main_reporting], fun _ _ _ => ⟨rfl, rfl⟩, ?_⟩
  intro e st text hscan htext
  obtain ⟨ext, htr, hout⟩ := scanLoop_st L (prologue L s).1 fuel NULL (prologue L s).2
  rw [hscan] at hout
  have ho : st.out = [] := by simpa [Scan.st, prologue_out] using hout.2
  rw [main_reporting, main_of_exited L s fuel e st hscan,
    epilogue_returned L _ st (text ++ [10]) (by simp [puts, htext])]
  simp [Outcome.st, ho]

/-- C10 at `textLib`: with size 0 or size 1000 reported for the same buffer the run is
the same and prints `ok!`. -/
theorem size_offset_never_used_witness :
    main (reporting textLib (fun _ => 0) (fun _ => 0)) 0 10
      = main (reporting textLib (fun _ => 1000) (fun _ => -7)) 0 10 ∧
    (main (reporting textLib (fun _ => 0) (fun _ => 0)) 0 10).st.out = bytes "ok!" ++ [10] :=
  have h := size_offset_never_used textLib 0 10 (fun _ => 0) (fun _ => 1000)
    (fun _ => 0) (fun _ => -7)
  ⟨h.1, h.2.2 501 (scanLoop textLib 4096 10 NULL (prologue textLib 0).2).st
    (bytes "ok!") rfl (by decide)⟩

end ArchiveReader
